import Mathlib

/-!
Verification of the Speed Snooker timer core (`FrameController` in
`ALPHA_TEST.py`, duplicated across the repository's files).

The controller state is embedded as a Lean structure; Python ints become `ℤ`,
the monotonic-clock timestamps and the fractional accumulator become `ℚ`.
Python's `int(x)` conversion (truncation toward zero) is embedded as `pytrunc`.
The Python attributes `_last_tick`, `_accum` and `_prev_shot_remaining` are
modelled as the fields `last_tick`, `accum` and `prev_shot_remaining`.
-/

/-- Python `int(x)` on a real number: truncation toward zero. -/
def pytrunc (q : ℚ) : ℤ := if 0 ≤ q then ⌊q⌋ else ⌈q⌉

/-- Configuration constant `FINAL_PHASE_SECONDS = 5 * 60` from the source. -/
def FINAL_PHASE_SECONDS : ℤ := 5 * 60

/-- Configuration constant `SHOT_CLOCK_NORMAL_SECONDS = 15` from the source. -/
def SHOT_CLOCK_NORMAL_SECONDS : ℤ := 15

/-- Configuration constant `SHOT_CLOCK_FINAL_SECONDS = 10` from the source. -/
def SHOT_CLOCK_FINAL_SECONDS : ℤ := 10

/-- State of the timer controller: the instance attributes of the Python class
`FrameController`. -/
structure FrameController where
  frame_remaining : ℤ
  shot_remaining : ℤ
  running : Bool
  last_tick : ℚ
  accum : ℚ
  prev_shot_remaining : ℤ
deriving DecidableEq

/-- Embeds `FrameController.__init__(frame_total_seconds)`; the Python
constructor reads the current monotonic clock, passed here as `now`. -/
def FrameController.create (frame_total_seconds : ℤ) (now : ℚ) : FrameController :=
  { frame_remaining := frame_total_seconds
    shot_remaining := 0
    running := false
    last_tick := now
    accum := 0
    prev_shot_remaining := 0 }

/-- Embeds `FrameController._current_shot_length`. -/
def FrameController.current_shot_length (s : FrameController) : ℤ :=
  if s.frame_remaining ≤ FINAL_PHASE_SECONDS then SHOT_CLOCK_FINAL_SECONDS
  else SHOT_CLOCK_NORMAL_SECONDS

/-- Embeds `FrameController.toggle_run`; the start branch reads the current
monotonic clock, passed here as `now`. -/
def FrameController.toggle_run (s : FrameController) (now : ℚ) : FrameController :=
  if s.frame_remaining ≤ 0 then
    { s with running := false, shot_remaining := 0, accum := 0, prev_shot_remaining := 0 }
  else if s.running then
    { s with running := false, shot_remaining := 0, accum := 0, prev_shot_remaining := 0 }
  else
    { s with running := true
             shot_remaining := s.current_shot_length
             prev_shot_remaining := s.current_shot_length
             last_tick := now
             accum := 0 }

/-- The whole-second decrement `dec = int(self._accum + dt)` that an
`update(now)` call would extract, as a function of the pre-call state. -/
def FrameController.decOf (s : FrameController) (now : ℚ) : ℤ :=
  pytrunc (s.accum + (now - s.last_tick))

/-- Embeds `FrameController.update`; the call reads the current monotonic
clock, passed here as `now`. -/
def FrameController.update (s : FrameController) (now : ℚ) : FrameController :=
  let dt := now - s.last_tick
  let s1 : FrameController := { s with last_tick := now }
  if s1.running then
    let accum1 := s1.accum + dt
    let dec := pytrunc accum1
    if dec ≤ 0 then { s1 with accum := accum1 }
    else
      let accum2 := accum1 - (dec : ℚ)
      let fr := max 0 (s1.frame_remaining - dec)
      let sh := max 0 (s1.shot_remaining - dec)
      let sh2 := if fr ≤ FINAL_PHASE_SECONDS ∧ SHOT_CLOCK_FINAL_SECONDS < sh
                 then SHOT_CLOCK_FINAL_SECONDS else sh
      if fr = 0 ∨ sh2 = 0 then
        { s1 with frame_remaining := fr, shot_remaining := sh2, accum := 0, running := false }
      else
        { s1 with frame_remaining := fr, shot_remaining := sh2, accum := accum2 }
  else s1

/-- Embeds `FrameController.shot_changed` (the spec's `poll_shot_change`):
returns the optional `(prev, cur)` pair together with the updated state. -/
def FrameController.shot_changed (s : FrameController) : Option (ℤ × ℤ) × FrameController :=
  if s.shot_remaining ≠ s.prev_shot_remaining then
    (some (s.prev_shot_remaining, s.shot_remaining),
     { s with prev_shot_remaining := s.shot_remaining })
  else (none, s)

/-- An external call into the controller: `toggle_run` or `update`, with the
monotonic-clock value observed by that call. -/
inductive Ev where
  | toggle (t : ℚ)
  | update (t : ℚ)

/-- Applies one call to a state. -/
def stepEv (s : FrameController) : Ev → FrameController
  | Ev.toggle t => s.toggle_run t
  | Ev.update t => s.update t

/-- Applies a sequence of calls, first element first. -/
def runEv (s : FrameController) (evs : List Ev) : FrameController :=
  evs.foldl stepEv s

/-- Applies a sequence of `update` calls, first timestamp first. -/
def runUpdates (s : FrameController) (ts : List ℚ) : FrameController :=
  ts.foldl (fun a t => a.update t) s

/-- States reachable from `create` by `toggle_run` and `update` calls whose
timestamps never lag behind the state's `last_tick`; this holds in particular
for any call sequence with non-decreasing timestamps, which is what the
monotonic clock of the source guarantees. -/
inductive Reach : FrameController → Prop where
  | create : ∀ (d : ℤ) (t0 : ℚ), 0 ≤ d → Reach (FrameController.create d t0)
  | toggle : ∀ (s : FrameController) (t : ℚ), Reach s → s.last_tick ≤ t →
      Reach (s.toggle_run t)
  | update : ∀ (s : FrameController) (t : ℚ), Reach s → s.last_tick ≤ t →
      Reach (s.update t)

/-- The inductive invariant of reachable controller states. -/
structure InvR (s : FrameController) : Prop where
  accum_nonneg : 0 ≤ s.accum
  accum_lt_one : s.accum < 1
  frame_nonneg : 0 ≤ s.frame_remaining
  shot_nonneg : 0 ≤ s.shot_remaining
  accum_zero_of_paused : s.running = false → s.accum = 0
  pos_of_running : s.running = true → 0 < s.frame_remaining ∧ 0 < s.shot_remaining
  shot_or_frame_zero_of_paused : s.running = false →
    s.shot_remaining = 0 ∨ s.frame_remaining = 0
  final_phase_bound : s.frame_remaining ≤ FINAL_PHASE_SECONDS →
    s.shot_remaining ≤ SHOT_CLOCK_FINAL_SECONDS

/-- The frame clock value that an `update(now)` call on a running state with a
positive decrement would produce. -/
def FrameController.frAfter (s : FrameController) (now : ℚ) : ℤ :=
  max 0 (s.frame_remaining - s.decOf now)

/-- The shot clock value (after the final-phase clamp) that an `update(now)`
call on a running state with a positive decrement would produce. -/
def FrameController.shAfter (s : FrameController) (now : ℚ) : ℤ :=
  if s.frAfter now ≤ FINAL_PHASE_SECONDS ∧
      SHOT_CLOCK_FINAL_SECONDS < max 0 (s.shot_remaining - s.decOf now)
  then SHOT_CLOCK_FINAL_SECONDS
  else max 0 (s.shot_remaining - s.decOf now)

lemma update_not_running {s : FrameController} (h : s.running = false) (now : ℚ) :
    s.update now = { s with last_tick := now } := by
  unfold FrameController.update
  simp [h]

lemma update_running_small {s : FrameController} {now : ℚ} (hrun : s.running = true)
    (hd : s.decOf now ≤ 0) :
    s.update now = { s with last_tick := now, accum := s.accum + (now - s.last_tick) } := by
  unfold FrameController.decOf at hd
  unfold FrameController.update
  simp [hrun, hd]

lemma update_running_stop {s : FrameController} {now : ℚ} (hrun : s.running = true)
    (hd : 0 < s.decOf now) (hstop : s.frAfter now = 0 ∨ s.shAfter now = 0) :
    s.update now =
      { s with
        last_tick := now
        running := false
        accum := 0
        frame_remaining := s.frAfter now
        shot_remaining := s.shAfter now } := by
  unfold FrameController.decOf at hd
  unfold FrameController.shAfter FrameController.frAfter FrameController.decOf at hstop ⊢
  unfold FrameController.update
  simp only [hrun, if_true]
  rw [if_neg (by omega)]
  rw [if_pos hstop]

lemma update_running_go {s : FrameController} {now : ℚ} (hrun : s.running = true)
    (hd : 0 < s.decOf now) (hgo : ¬(s.frAfter now = 0 ∨ s.shAfter now = 0)) :
    s.update now =
      { s with
        last_tick := now
        frame_remaining := s.frAfter now
        shot_remaining := s.shAfter now
        accum := s.accum + (now - s.last_tick) - (s.decOf now : ℚ) } := by
  unfold FrameController.decOf at hd
  unfold FrameController.shAfter FrameController.frAfter FrameController.decOf at hgo ⊢
  unfold FrameController.update
  simp only [hrun, if_true]
  rw [if_neg (by omega)]
  rw [if_neg hgo]

lemma pytrunc_nonpos_of_lt_one {q : ℚ} (h : q < 1) : pytrunc q ≤ 0 := by
  unfold pytrunc
  split_ifs with h0
  · have : ⌊q⌋ < (1 : ℤ) := Int.floor_lt.mpr (by exact_mod_cast h)
    omega
  · exact Int.ceil_le.mpr (by push_cast; linarith)

lemma lt_one_of_pytrunc_nonpos {q : ℚ} (h0 : 0 ≤ q) (h : pytrunc q ≤ 0) : q < 1 := by
  unfold pytrunc at h
  rw [if_pos h0] at h
  have h1 := Int.lt_floor_add_one q
  have : ((⌊q⌋ : ℚ) + 1) ≤ 1 := by
    have : ((⌊q⌋ : ℚ)) ≤ 0 := by exact_mod_cast h
    linarith
  linarith

lemma pytrunc_eq_floor {q : ℚ} (h : 0 ≤ q) : pytrunc q = ⌊q⌋ := if_pos h

lemma pytrunc_pos_facts {q : ℚ} (h : 0 < pytrunc q) :
    1 ≤ q ∧ 0 ≤ q - (pytrunc q : ℚ) ∧ q - (pytrunc q : ℚ) < 1 := by
  have hq : 0 ≤ q := by
    by_contra hneg
    push_neg at hneg
    have : pytrunc q ≤ 0 := by
      unfold pytrunc
      rw [if_neg (not_le.mpr hneg)]
      exact Int.ceil_le.mpr (by push_cast; linarith)
    omega
  rw [pytrunc_eq_floor hq] at h ⊢
  refine ⟨?_, ?_, ?_⟩
  · calc (1 : ℚ) = ((1 : ℤ) : ℚ) := by norm_num
    _ ≤ (⌊q⌋ : ℚ) := by exact_mod_cast h
    _ ≤ q := Int.floor_le q
  · have := Int.floor_le q
    linarith
  · have := Int.lt_floor_add_one q
    linarith

lemma frAfter_nonneg (s : FrameController) (now : ℚ) : 0 ≤ s.frAfter now :=
  le_max_left 0 _

lemma shAfter_nonneg (s : FrameController) (now : ℚ) : 0 ≤ s.shAfter now := by
  unfold FrameController.shAfter
  split_ifs
  · norm_num [SHOT_CLOCK_FINAL_SECONDS]
  · exact le_max_left 0 _

lemma shAfter_le_final {s : FrameController} {now : ℚ}
    (h : s.frAfter now ≤ FINAL_PHASE_SECONDS) :
    s.shAfter now ≤ SHOT_CLOCK_FINAL_SECONDS := by
  unfold FrameController.shAfter
  split_ifs with hc
  · exact le_refl _
  · rw [not_and_or] at hc
    rcases hc with hc | hc
    · exact absurd h hc
    · omega

lemma frAfter_le_frame {s : FrameController} {now : ℚ}
    (hf : 0 ≤ s.frame_remaining) (hd : 0 ≤ s.decOf now) :
    s.frAfter now ≤ s.frame_remaining := by
  unfold FrameController.frAfter
  omega

lemma decOf_nonneg {s : FrameController} {t : ℚ} (ha : 0 ≤ s.accum)
    (ht : s.last_tick ≤ t) : 0 ≤ s.decOf t := by
  unfold FrameController.decOf
  rw [pytrunc_eq_floor (by linarith)]
  exact Int.floor_nonneg.mpr (by linarith)

theorem invR_create {d : ℤ} (t0 : ℚ) (hd : 0 ≤ d) :
    InvR (FrameController.create d t0) := by
  refine ⟨?_, ?_, ?_, ?_, ?_, ?_, ?_, ?_⟩ <;>
    (simp [FrameController.create, FINAL_PHASE_SECONDS, SHOT_CLOCK_FINAL_SECONDS]; try omega)

theorem invR_toggle {s : FrameController} (hI : InvR s) (t : ℚ) :
    InvR (s.toggle_run t) := by
  obtain ⟨a0, a1, f0, sh0, pz, pr, pzf, fc⟩ := hI
  unfold FrameController.toggle_run
  split_ifs with h1 h2
  · exact ⟨le_refl 0, by norm_num, f0, le_refl 0, fun _ => rfl,
      fun h => by simp at h, fun _ => Or.inl rfl,
      fun _ => by norm_num [SHOT_CLOCK_FINAL_SECONDS]⟩
  · exact ⟨le_refl 0, by norm_num, f0, le_refl 0, fun _ => rfl,
      fun h => by simp at h, fun _ => Or.inl rfl,
      fun _ => by norm_num [SHOT_CLOCK_FINAL_SECONDS]⟩
  · refine ⟨le_refl 0, by norm_num, f0, ?_, ?_, ?_, ?_, ?_⟩
    · unfold FrameController.current_shot_length
      split_ifs <;> norm_num [SHOT_CLOCK_FINAL_SECONDS, SHOT_CLOCK_NORMAL_SECONDS]
    · intro h; simp at h
    · intro _
      refine ⟨not_le.mp h1, ?_⟩
      unfold FrameController.current_shot_length
      split_ifs <;> norm_num [SHOT_CLOCK_FINAL_SECONDS, SHOT_CLOCK_NORMAL_SECONDS]
    · intro h; simp at h
    · intro hfin
      unfold FrameController.current_shot_length
      rw [if_pos hfin]

theorem invR_update {s : FrameController} {t : ℚ} (hI : InvR s) (ht : s.last_tick ≤ t) :
    InvR (s.update t) := by
  obtain ⟨a0, a1, f0, sh0, pz, pr, pzf, fc⟩ := hI
  by_cases hrun : s.running = true
  · have hdt0 : (0 : ℚ) ≤ t - s.last_tick := by linarith
    have hA0 : (0 : ℚ) ≤ s.accum + (t - s.last_tick) := by linarith
    by_cases hd : s.decOf t ≤ 0
    · rw [update_running_small hrun hd]
      have hlt : s.accum + (t - s.last_tick) < 1 := lt_one_of_pytrunc_nonpos hA0 hd
      refine ⟨hA0, hlt, f0, sh0, ?_, pr, pzf, fc⟩
      · intro h
        simp [hrun] at h
    · push_neg at hd
      obtain ⟨hge1, hfr0, hfr1⟩ := pytrunc_pos_facts (q := s.accum + (t - s.last_tick)) hd
      by_cases hstop : s.frAfter t = 0 ∨ s.shAfter t = 0
      · rw [update_running_stop hrun hd hstop]
        refine ⟨le_refl 0, by norm_num, frAfter_nonneg s t, shAfter_nonneg s t,
          fun _ => rfl, ?_, fun _ => hstop.symm, fun h => shAfter_le_final h⟩
        · intro h; cases h
      · rw [update_running_go hrun hd hstop]
        push_neg at hstop
        refine ⟨hfr0, hfr1, frAfter_nonneg s t, shAfter_nonneg s t, ?_, ?_, ?_, ?_⟩
        · intro h
          simp [hrun] at h
        · intro _
          have h1 := frAfter_nonneg s t
          have h2 := shAfter_nonneg s t
          exact ⟨lt_of_le_of_ne h1 (Ne.symm hstop.1), lt_of_le_of_ne h2 (Ne.symm hstop.2)⟩
        · intro h
          simp [hrun] at h
        · exact fun h => shAfter_le_final h
  · have hr : s.running = false := by simpa using hrun
    rw [update_not_running hr]
    exact ⟨a0, a1, f0, sh0, fun _ => pz hr, pr, fun _ => pzf hr, fc⟩

/-- Every reachable state satisfies the invariant. -/
theorem reach_invR {s : FrameController} (h : Reach s) : InvR s := by
  induction h with
  | create d t0 hd => exact invR_create t0 hd
  | toggle s t _ _ ih => exact invR_toggle ih t
  | update s t _ ht ih => exact invR_update ih ht

lemma update_last_tick (s : FrameController) (t : ℚ) : (s.update t).last_tick = t := by
  by_cases hrun : s.running = true
  · by_cases hd : s.decOf t ≤ 0
    · rw [update_running_small hrun hd]
    · push_neg at hd
      by_cases hstop : s.frAfter t = 0 ∨ s.shAfter t = 0
      · rw [update_running_stop hrun hd hstop]
      · rw [update_running_go hrun hd hstop]
  · rw [update_not_running (by simpa using hrun) t]

/-- Claim C5: `shot_changed` returns the `(previous, current)` pair exactly when
`shot_remaining` differs from `previous_shot_remaining`, simultaneously setting
`previous_shot_remaining` to the current value, and returns no change
otherwise; an immediately repeated call returns no change. -/
theorem shot_changed_exactly_once (s : FrameController) :
    s.shot_changed =
      (if s.shot_remaining = s.prev_shot_remaining then (none, s)
       else (some (s.prev_shot_remaining, s.shot_remaining),
         { s with prev_shot_remaining := s.shot_remaining })) ∧
    s.shot_changed.2.prev_shot_remaining = s.shot_remaining ∧
    s.shot_changed.2.shot_changed.1 = none := by
  unfold FrameController.shot_changed
  by_cases h : s.shot_remaining = s.prev_shot_remaining
  · simp [h]
  · simp [h]

/-- Claim C6: toggling while running (with frame time left) stops the run,
clears the shot clock and `previous_shot_remaining`, so the immediately
following `shot_changed` poll reports no change. -/
theorem toggle_manual_stop (s : FrameController) (t : ℚ)
    (hrun : s.running = true) (hfr : 0 < s.frame_remaining) :
    (s.toggle_run t).running = false ∧ (s.toggle_run t).shot_remaining = 0 ∧
    (s.toggle_run t).prev_shot_remaining = 0 ∧
    (s.toggle_run t).shot_changed.1 = none := by
  unfold FrameController.toggle_run
  rw [if_neg (by omega), if_pos hrun]
  unfold FrameController.shot_changed
  simp

theorem toggle_manual_stop_witness :
    ((FrameController.mk 330 15 true 0 0 15).running = true ∧
      0 < (FrameController.mk 330 15 true 0 0 15).frame_remaining) ∧
    (((FrameController.mk 330 15 true 0 0 15).toggle_run 1).running = false ∧
      ((FrameController.mk 330 15 true 0 0 15).toggle_run 1).shot_remaining = 0 ∧
      ((FrameController.mk 330 15 true 0 0 15).toggle_run 1).prev_shot_remaining = 0 ∧
      ((FrameController.mk 330 15 true 0 0 15).toggle_run 1).shot_changed.1 = none) :=
  ⟨⟨rfl, by decide⟩, toggle_manual_stop (FrameController.mk 330 15 true 0 0 15) 1 rfl (by decide)⟩

/-- Claim C8: toggling when the frame has ended (frame_remaining at or below 0)
forces the stopped reset state regardless of the prior state: running false,
shot clock 0, accumulator 0, previous_shot_remaining 0. -/
theorem toggle_expired_refusal (s : FrameController) (t : ℚ) (h : s.frame_remaining ≤ 0) :
    (s.toggle_run t).running = false ∧ (s.toggle_run t).shot_remaining = 0 ∧
    (s.toggle_run t).accum = 0 ∧ (s.toggle_run t).prev_shot_remaining = 0 := by
  unfold FrameController.toggle_run
  rw [if_pos h]
  exact ⟨rfl, rfl, rfl, rfl⟩

theorem toggle_expired_refusal_witness :
    (FrameController.mk 0 7 true 3 0 7).frame_remaining ≤ 0 ∧
    (((FrameController.mk 0 7 true 3 0 7).toggle_run 5).running = false ∧
      ((FrameController.mk 0 7 true 3 0 7).toggle_run 5).shot_remaining = 0 ∧
      ((FrameController.mk 0 7 true 3 0 7).toggle_run 5).accum = 0 ∧
      ((FrameController.mk 0 7 true 3 0 7).toggle_run 5).prev_shot_remaining = 0) :=
  ⟨by decide, toggle_expired_refusal (FrameController.mk 0 7 true 3 0 7) 5 (by decide)⟩

/-- Claim C9: an `update` on a paused state only records the new timestamp in
`last_tick`; every other field is unchanged. -/
theorem update_paused_noop (s : FrameController) (now : ℚ) (h : s.running = false) :
    s.update now = { s with last_tick := now } :=
  update_not_running h now

theorem update_paused_noop_witness :
    (FrameController.mk 330 0 false 0 0 0).running = false ∧
    (FrameController.mk 330 0 false 0 0 0).update 7 =
      { FrameController.mk 330 0 false 0 0 0 with last_tick := 7 } :=
  ⟨rfl, update_paused_noop (FrameController.mk 330 0 false 0 0 0) 7 rfl⟩

/-- Claim C10: a toggle that starts a shot run leaves `previous_shot_remaining`
equal to the new `shot_remaining`, so the immediately following `shot_changed`
poll reports no change. -/
theorem toggle_start_no_notification (s : FrameController) (t : ℚ)
    (hrun : s.running = false) (hfr : 0 < s.frame_remaining) :
    (s.toggle_run t).prev_shot_remaining = (s.toggle_run t).shot_remaining ∧
    (s.toggle_run t).shot_changed = (none, s.toggle_run t) := by
  unfold FrameController.toggle_run
  rw [if_neg (by omega), if_neg (by simp [hrun])]
  unfold FrameController.shot_changed
  simp

theorem toggle_start_no_notification_witness :
    ((FrameController.mk 330 0 false 0 0 0).running = false ∧
      0 < (FrameController.mk 330 0 false 0 0 0).frame_remaining) ∧
    (((FrameController.mk 330 0 false 0 0 0).toggle_run 2).prev_shot_remaining =
        ((FrameController.mk 330 0 false 0 0 0).toggle_run 2).shot_remaining ∧
      ((FrameController.mk 330 0 false 0 0 0).toggle_run 2).shot_changed =
        (none, (FrameController.mk 330 0 false 0 0 0).toggle_run 2)) :=
  ⟨⟨rfl, by decide⟩,
    toggle_start_no_notification (FrameController.mk 330 0 false 0 0 0) 2 rfl (by decide)⟩

/-- Claim C1 fails on the code: the reachable state obtained by
`create(8)`, `toggle()` (shot clock becomes 10), then `update` 9 seconds later
has `running = false` (auto-stop because the frame reached 0) while
`shot_remaining = 1`, not 0. -/
theorem paused_shot_zero_counterexample :
    Reach (((FrameController.create 8 0).toggle_run 0).update 9) ∧
    (((FrameController.create 8 0).toggle_run 0).update 9).running = false ∧
    (((FrameController.create 8 0).toggle_run 0).update 9).shot_remaining = 1 := by
  refine ⟨Reach.update _ 9 (Reach.toggle _ 0 (Reach.create 8 0 (by norm_num)) ?_) ?_, ?_, ?_⟩ <;>
    norm_num [FrameController.create, FrameController.toggle_run, FrameController.update,
      FrameController.current_shot_length, pytrunc, FINAL_PHASE_SECONDS,
      SHOT_CLOCK_FINAL_SECONDS, SHOT_CLOCK_NORMAL_SECONDS]

/-- Claim C1 (amended): in every reachable state with `running = false`,
either `shot_remaining = 0` or `frame_remaining = 0`; the exception to the
claim is exactly the auto-stop in which the frame reached 0 while the shot
clock was still positive, where the positive shot value is retained. -/
theorem paused_shot_zero_or_frame_zero {s : FrameController} (h : Reach s)
    (hrun : s.running = false) :
    s.shot_remaining = 0 ∨ s.frame_remaining = 0 :=
  (reach_invR h).shot_or_frame_zero_of_paused hrun

theorem paused_shot_zero_or_frame_zero_witness :
    Reach (FrameController.create 330 0) ∧
    (FrameController.create 330 0).running = false ∧
    ((FrameController.create 330 0).shot_remaining = 0 ∨
      (FrameController.create 330 0).frame_remaining = 0) :=
  ⟨Reach.create 330 0 (by norm_num), rfl,
    paused_shot_zero_or_frame_zero (Reach.create 330 0 (by norm_num)) rfl⟩

/-- Claim C2 fails on the code as stated: starting a shot at time 0 (a
reachable state, with `last_tick = 0` and accumulator 0) and then calling
`update` with the earlier timestamp -1 produces `dec = -1`, not 0, and drives
the fractional accumulator to -1, outside [0,1). -/
theorem backwards_clock_counterexample :
    Reach ((FrameController.create 330 0).toggle_run 0) ∧
    (-1 : ℚ) < ((FrameController.create 330 0).toggle_run 0).last_tick ∧
    ((FrameController.create 330 0).toggle_run 0).decOf (-1) = -1 ∧
    (((FrameController.create 330 0).toggle_run 0).update (-1)).accum = -1 := by
  refine ⟨Reach.toggle _ 0 (Reach.create 330 0 (by norm_num)) ?_, ?_, ?_, ?_⟩ <;>
    norm_num [FrameController.create, FrameController.toggle_run, FrameController.update,
      FrameController.decOf, FrameController.current_shot_length, pytrunc, Int.ceil_neg,
      FINAL_PHASE_SECONDS, SHOT_CLOCK_FINAL_SECONDS, SHOT_CLOCK_NORMAL_SECONDS]

/-- Claim C2 (amended): an `update` whose timestamp is earlier than
`last_tick`, called in a reachable state, produces `dec ≤ 0` (not necessarily
0) and leaves `frame_remaining` and `shot_remaining` unchanged; when running,
the negative elapsed delta is absorbed into the fractional accumulator, which
may therefore become negative, and when paused the accumulator is unchanged. -/
theorem backwards_clock_ignored {s : FrameController} {now : ℚ} (h : Reach s)
    (hlt : now < s.last_tick) :
    (s.update now).frame_remaining = s.frame_remaining ∧
    (s.update now).shot_remaining = s.shot_remaining ∧
    s.decOf now ≤ 0 ∧
    (s.update now).accum =
      (if s.running then s.accum + (now - s.last_tick) else s.accum) := by
  have hI := reach_invR h
  have hdec : s.decOf now ≤ 0 := by
    unfold FrameController.decOf
    apply pytrunc_nonpos_of_lt_one
    have := hI.accum_lt_one
    linarith
  by_cases hrun : s.running = true
  · rw [update_running_small hrun hdec]
    exact ⟨rfl, rfl, hdec, by simp [hrun]⟩
  · have hr : s.running = false := by simpa using hrun
    rw [update_not_running hr]
    exact ⟨rfl, rfl, hdec, by simp [hr]⟩

theorem backwards_clock_ignored_witness :
    (Reach ((FrameController.create 330 0).toggle_run 0) ∧
      (-1 : ℚ) < ((FrameController.create 330 0).toggle_run 0).last_tick) ∧
    ((((FrameController.create 330 0).toggle_run 0).update (-1)).frame_remaining =
        ((FrameController.create 330 0).toggle_run 0).frame_remaining ∧
      (((FrameController.create 330 0).toggle_run 0).update (-1)).shot_remaining =
        ((FrameController.create 330 0).toggle_run 0).shot_remaining ∧
      ((FrameController.create 330 0).toggle_run 0).decOf (-1) ≤ 0 ∧
      (((FrameController.create 330 0).toggle_run 0).update (-1)).accum =
        (if ((FrameController.create 330 0).toggle_run 0).running then
          ((FrameController.create 330 0).toggle_run 0).accum +
            ((-1) - ((FrameController.create 330 0).toggle_run 0).last_tick)
        else ((FrameController.create 330 0).toggle_run 0).accum)) :=
  ⟨⟨Reach.toggle _ 0 (Reach.create 330 0 (by norm_num))
      (by norm_num [FrameController.create]),
    by norm_num [FrameController.create, FrameController.toggle_run]⟩,
  backwards_clock_ignored
    (Reach.toggle _ 0 (Reach.create 330 0 (by norm_num))
      (by norm_num [FrameController.create]))
    (by norm_num [FrameController.create, FrameController.toggle_run])⟩

lemma update_fields_big {s : FrameController} {now : ℚ} (hrun : s.running = true)
    (hd : 0 < s.decOf now) :
    (s.update now).frame_remaining = s.frAfter now ∧
    (s.update now).shot_remaining = s.shAfter now := by
  by_cases hstop : s.frAfter now = 0 ∨ s.shAfter now = 0
  · rw [update_running_stop hrun hd hstop]; exact ⟨rfl, rfl⟩
  · rw [update_running_go hrun hd hstop]; exact ⟨rfl, rfl⟩

lemma stepEv_facts {s : FrameController} (e : Ev) (hf : 0 ≤ s.frame_remaining) :
    0 ≤ (stepEv s e).frame_remaining ∧
    (stepEv s e).frame_remaining ≤ s.frame_remaining ∧
    ((s.frame_remaining ≤ FINAL_PHASE_SECONDS → s.shot_remaining ≤ SHOT_CLOCK_FINAL_SECONDS) →
      (stepEv s e).frame_remaining ≤ FINAL_PHASE_SECONDS →
      (stepEv s e).shot_remaining ≤ SHOT_CLOCK_FINAL_SECONDS) := by
  cases e with
  | toggle t =>
    simp only [stepEv]
    unfold FrameController.toggle_run
    split_ifs with h1 h2
    · exact ⟨hf, le_refl _, fun _ _ => by norm_num [SHOT_CLOCK_FINAL_SECONDS]⟩
    · exact ⟨hf, le_refl _, fun _ _ => by norm_num [SHOT_CLOCK_FINAL_SECONDS]⟩
    · refine ⟨hf, le_refl _, ?_⟩
      intro _ hfin
      show s.current_shot_length ≤ SHOT_CLOCK_FINAL_SECONDS
      unfold FrameController.current_shot_length
      rw [if_pos (show s.frame_remaining ≤ FINAL_PHASE_SECONDS from hfin)]
  | update t =>
    simp only [stepEv]
    by_cases hrun : s.running = true
    · by_cases hd : s.decOf t ≤ 0
      · rw [update_running_small hrun hd]
        exact ⟨hf, le_refl _, fun hc h2 => hc h2⟩
      · push_neg at hd
        obtain ⟨h1, h2⟩ := update_fields_big hrun hd
        rw [h1, h2]
        exact ⟨frAfter_nonneg s t, frAfter_le_frame hf (le_of_lt hd),
          fun _ hfin => shAfter_le_final hfin⟩
    · rw [update_not_running (by simpa using hrun) t]
      exact ⟨hf, le_refl _, fun hc h2 => hc h2⟩

lemma runEv_fp : ∀ (evs : List Ev) (s : FrameController),
    0 ≤ s.frame_remaining →
    (s.frame_remaining ≤ FINAL_PHASE_SECONDS → s.shot_remaining ≤ SHOT_CLOCK_FINAL_SECONDS) →
    0 ≤ (runEv s evs).frame_remaining ∧
      (runEv s evs).frame_remaining ≤ s.frame_remaining ∧
      ((runEv s evs).frame_remaining ≤ FINAL_PHASE_SECONDS →
        (runEv s evs).shot_remaining ≤ SHOT_CLOCK_FINAL_SECONDS)
  | [], _, hf, hc => ⟨hf, le_refl _, hc⟩
  | e :: evs, s, hf, hc => by
    have hs := stepEv_facts e hf
    have hrec := runEv_fp evs (stepEv s e) hs.1 (hs.2.2 hc)
    have hfold : runEv s (e :: evs) = runEv (stepEv s e) evs := rfl
    rw [hfold]
    exact ⟨hrec.1, le_trans hrec.2.1 hs.2.1, hrec.2.2⟩

/-- Claim C3: once a reachable state has `frame_remaining` at or below
`FINAL_PHASE_SECONDS`, the shot clock never exceeds `SHOT_CLOCK_FINAL_SECONDS`
in that state (take the empty call list) or any state produced by further
calls, and the clamp leaves the decremented shot value untouched whenever that
value is already at or below `SHOT_CLOCK_FINAL_SECONDS`. -/
theorem final_phase_clamp_invariant {s : FrameController} (h : Reach s)
    (hfin : s.frame_remaining ≤ FINAL_PHASE_SECONDS) :
    (∀ evs : List Ev, (runEv s evs).shot_remaining ≤ SHOT_CLOCK_FINAL_SECONDS ∧
      (runEv s evs).frame_remaining ≤ FINAL_PHASE_SECONDS) ∧
    (∀ now : ℚ, s.running = true → 0 < s.decOf now →
      max 0 (s.shot_remaining - s.decOf now) ≤ SHOT_CLOCK_FINAL_SECONDS →
      (s.update now).shot_remaining = max 0 (s.shot_remaining - s.decOf now)) := by
  have hI := reach_invR h
  constructor
  · intro evs
    have hr := runEv_fp evs s hI.frame_nonneg hI.final_phase_bound
    have hle : (runEv s evs).frame_remaining ≤ FINAL_PHASE_SECONDS := le_trans hr.2.1 hfin
    exact ⟨hr.2.2 hle, hle⟩
  · intro now hrun hd hsh
    rw [(update_fields_big hrun hd).2]
    unfold FrameController.shAfter
    rw [if_neg (fun hcon => absurd (lt_of_lt_of_le hcon.2 hsh) (lt_irrefl _))]

theorem final_phase_clamp_invariant_witness :
    (Reach (FrameController.create 300 0) ∧
      (FrameController.create 300 0).frame_remaining ≤ FINAL_PHASE_SECONDS) ∧
    ((∀ evs : List Ev,
        (runEv (FrameController.create 300 0) evs).shot_remaining ≤ SHOT_CLOCK_FINAL_SECONDS ∧
        (runEv (FrameController.create 300 0) evs).frame_remaining ≤ FINAL_PHASE_SECONDS) ∧
      (∀ now : ℚ, (FrameController.create 300 0).running = true →
        0 < (FrameController.create 300 0).decOf now →
        max 0 ((FrameController.create 300 0).shot_remaining -
          (FrameController.create 300 0).decOf now) ≤ SHOT_CLOCK_FINAL_SECONDS →
        ((FrameController.create 300 0).update now).shot_remaining =
          max 0 ((FrameController.create 300 0).shot_remaining -
            (FrameController.create 300 0).decOf now))) :=
  ⟨⟨Reach.create 300 0 (by norm_num),
      by norm_num [FrameController.create, FINAL_PHASE_SECONDS]⟩,
    final_phase_clamp_invariant (Reach.create 300 0 (by norm_num))
      (by norm_num [FrameController.create, FINAL_PHASE_SECONDS])⟩

lemma runUpdates_paused : ∀ (ts : List ℚ) (s : FrameController), s.running = false →
    (runUpdates s ts).frame_remaining = s.frame_remaining ∧
    (runUpdates s ts).shot_remaining = s.shot_remaining ∧
    (runUpdates s ts).running = false
  | [], _, h => ⟨rfl, rfl, h⟩
  | t :: ts, s, h => by
    have hstep : s.update t = { s with last_tick := t } := update_not_running h t
    have hrec := runUpdates_paused ts (s.update t) (by rw [hstep]; exact h)
    have hfold : runUpdates s (t :: ts) = runUpdates (s.update t) ts := rfl
    rw [hfold, hstep]
    rw [hstep] at hrec
    exact ⟨hrec.1, hrec.2.1, hrec.2.2⟩

/-- Claim C4: an `update` call on a running reachable state that drives
`frame_remaining` or `shot_remaining` to 0 sets `running` to false and the
accumulator to 0, and any further sequence of `update` calls (before any
toggle) leaves both clocks unchanged. -/
theorem auto_stop_halts {s : FrameController} {now : ℚ} (h : Reach s)
    (hrun : s.running = true)
    (hzero : (s.update now).frame_remaining = 0 ∨ (s.update now).shot_remaining = 0) :
    (s.update now).running = false ∧ (s.update now).accum = 0 ∧
    ∀ ts : List ℚ,
      (runUpdates (s.update now) ts).frame_remaining = (s.update now).frame_remaining ∧
      (runUpdates (s.update now) ts).shot_remaining = (s.update now).shot_remaining := by
  have hI := reach_invR h
  obtain ⟨hfpos, hspos⟩ := hI.pos_of_running hrun
  by_cases hd : s.decOf now ≤ 0
  · exfalso
    rw [update_running_small hrun hd] at hzero
    simp only at hzero
    omega
  · push_neg at hd
    by_cases hstop : s.frAfter now = 0 ∨ s.shAfter now = 0
    · rw [update_running_stop hrun hd hstop]
      exact ⟨rfl, rfl, fun ts =>
        ⟨(runUpdates_paused ts _ rfl).1, (runUpdates_paused ts _ rfl).2.1⟩⟩
    · exfalso
      rw [update_running_go hrun hd hstop] at hzero
      simp only at hzero
      exact hstop hzero

theorem auto_stop_halts_witness :
    (Reach ((FrameController.create 330 0).toggle_run 0) ∧
      ((FrameController.create 330 0).toggle_run 0).running = true ∧
      ((((FrameController.create 330 0).toggle_run 0).update 16).frame_remaining = 0 ∨
        (((FrameController.create 330 0).toggle_run 0).update 16).shot_remaining = 0)) ∧
    ((((FrameController.create 330 0).toggle_run 0).update 16).running = false ∧
      (((FrameController.create 330 0).toggle_run 0).update 16).accum = 0 ∧
      ∀ ts : List ℚ,
        (runUpdates (((FrameController.create 330 0).toggle_run 0).update 16) ts).frame_remaining =
          (((FrameController.create 330 0).toggle_run 0).update 16).frame_remaining ∧
        (runUpdates (((FrameController.create 330 0).toggle_run 0).update 16) ts).shot_remaining =
          (((FrameController.create 330 0).toggle_run 0).update 16).shot_remaining) :=
  ⟨⟨Reach.toggle _ 0 (Reach.create 330 0 (by norm_num))
      (by norm_num [FrameController.create]),
    by norm_num [FrameController.create, FrameController.toggle_run,
      FrameController.current_shot_length, FINAL_PHASE_SECONDS],
    Or.inr (by norm_num [FrameController.create, FrameController.toggle_run,
      FrameController.update, FrameController.current_shot_length, pytrunc,
      FINAL_PHASE_SECONDS, SHOT_CLOCK_FINAL_SECONDS, SHOT_CLOCK_NORMAL_SECONDS])⟩,
  auto_stop_halts
    (Reach.toggle _ 0 (Reach.create 330 0 (by norm_num))
      (by norm_num [FrameController.create]))
    (by norm_num [FrameController.create, FrameController.toggle_run,
      FrameController.current_shot_length, FINAL_PHASE_SECONDS])
    (Or.inr (by norm_num [FrameController.create, FrameController.toggle_run,
      FrameController.update, FrameController.current_shot_length, pytrunc,
      FINAL_PHASE_SECONDS, SHOT_CLOCK_FINAL_SECONDS, SHOT_CLOCK_NORMAL_SECONDS]))⟩

lemma accum_lt_one_update {s : FrameController} (h1 : s.accum < 1) (t : ℚ) :
    (s.update t).accum < 1 := by
  by_cases hrun : s.running = true
  · by_cases hd : s.decOf t ≤ 0
    · rw [update_running_small hrun hd]
      show s.accum + (t - s.last_tick) < 1
      by_cases hq : 0 ≤ s.accum + (t - s.last_tick)
      · exact lt_one_of_pytrunc_nonpos hq hd
      · push_neg at hq
        linarith
    · push_neg at hd
      obtain ⟨_, _, hlt⟩ := pytrunc_pos_facts (q := s.accum + (t - s.last_tick)) hd
      by_cases hstop : s.frAfter t = 0 ∨ s.shAfter t = 0
      · rw [update_running_stop hrun hd hstop]
        show (0 : ℚ) < 1
        norm_num
      · rw [update_running_go hrun hd hstop]
        exact hlt
  · rw [update_not_running (by simpa using hrun) t]
    exact h1

lemma update_zero_dt {s : FrameController} (h1 : s.accum < 1) :
    (s.update s.last_tick).frame_remaining = s.frame_remaining ∧
    (s.update s.last_tick).shot_remaining = s.shot_remaining := by
  by_cases hrun : s.running = true
  · have hd : s.decOf s.last_tick ≤ 0 := by
      unfold FrameController.decOf
      apply pytrunc_nonpos_of_lt_one
      rw [sub_self, add_zero]
      exact h1
    rw [update_running_small hrun hd]
    exact ⟨rfl, rfl⟩
  · rw [update_not_running (by simpa using hrun) _]
    exact ⟨rfl, rfl⟩

/-- Claim C7: from any reachable state, a second `update` with the same
timestamp changes neither clock, and an `update` at the current `last_tick`
changes neither clock; the zero elapsed delta yields `dec = 0` because the
accumulator stays below 1. -/
theorem update_idempotent {s : FrameController} (t : ℚ) (h : Reach s) :
    ((s.update t).update t).frame_remaining = (s.update t).frame_remaining ∧
    ((s.update t).update t).shot_remaining = (s.update t).shot_remaining ∧
    (s.update s.last_tick).frame_remaining = s.frame_remaining ∧
    (s.update s.last_tick).shot_remaining = s.shot_remaining ∧
    (s.last_tick ≤ t → (s.update t).decOf t = 0) ∧
    s.decOf s.last_tick = 0 := by
  have hI := reach_invR h
  have ha1 := hI.accum_lt_one
  have h2 := update_zero_dt (s := s.update t) (accum_lt_one_update ha1 t)
  rw [update_last_tick s t] at h2
  have h3 := update_zero_dt (s := s) ha1
  refine ⟨h2.1, h2.2, h3.1, h3.2, ?_, ?_⟩
  · intro hle
    have hI' := invR_update hI hle
    unfold FrameController.decOf
    rw [update_last_tick s t, sub_self, add_zero,
      pytrunc_eq_floor hI'.accum_nonneg]
    exact Int.floor_eq_zero_iff.mpr ⟨hI'.accum_nonneg, hI'.accum_lt_one⟩
  · unfold FrameController.decOf
    rw [sub_self, add_zero, pytrunc_eq_floor hI.accum_nonneg]
    exact Int.floor_eq_zero_iff.mpr ⟨hI.accum_nonneg, hI.accum_lt_one⟩

theorem update_idempotent_witness :
    Reach (FrameController.create 330 0) ∧
    ((((FrameController.create 330 0).update 5).update 5).frame_remaining =
        ((FrameController.create 330 0).update 5).frame_remaining ∧
      (((FrameController.create 330 0).update 5).update 5).shot_remaining =
        ((FrameController.create 330 0).update 5).shot_remaining ∧
      ((FrameController.create 330 0).update
          (FrameController.create 330 0).last_tick).frame_remaining =
        (FrameController.create 330 0).frame_remaining ∧
      ((FrameController.create 330 0).update
          (FrameController.create 330 0).last_tick).shot_remaining =
        (FrameController.create 330 0).shot_remaining ∧
      ((FrameController.create 330 0).last_tick ≤ 5 →
        ((FrameController.create 330 0).update 5).decOf 5 = 0) ∧
      (FrameController.create 330 0).decOf (FrameController.create 330 0).last_tick = 0) :=
  ⟨Reach.create 330 0 (by norm_num),
    update_idempotent 5 (Reach.create 330 0 (by norm_num))⟩
